import Mathlib

/-!
# Verification of the batblip progressive spectrogram tile cache

Shallow embedding of `src/canvas/tile_cache.rs` (plus the small pieces of
`src/dsp/fft.rs` and `src/canvas/spectrogram_renderer.rs` it depends on),
together with proofs settling the frozen claims about the tile cache, its
LRU eviction, the async tile scheduler with in-flight deduplication, the
LOD fallback math and the prefetch planner.

Modelling conventions:
* Rust `usize` is modelled as `Nat` (the quantities involved — byte counts,
  tile indices, sample counts — never approach `2^64` in any state the
  claims exercise; `saturating_sub` is ordinary `Nat` subtraction, which is
  already saturating).
* Rust `f64` arithmetic in the pure LOD math (`fallback_tile_info`,
  `select_lod`, the prefetch time→tile conversion) is modelled exactly over
  `ℚ`; all quantities appearing there are ratios of machine integers and the
  comparisons/floors involved are exact in `f64` for every input within the
  representable range that a real file can produce.
* `HashMap` is modelled as an association list with pairwise-distinct keys
  (the well-formedness predicate `keysNodup`), `HashSet` as a duplicate-free
  list; removal is `List.filter`, which on a list with distinct keys removes
  exactly the one matching entry.
* The cooperative single-threaded task model: a scheduled async tile task is
  a `pending` entry; all mutation performed by the task body between two
  yield points is a single atomic completion step (the source is
  single-threaded, so no other code observes intermediate states).
-/

namespace Batblip

/-- Number of spectrogram columns per tile (constant across all LODs). -/
def TILE_COLS : Nat := 256

/-- Roughly 120 MB cap for tile pixel data. -/
def MAX_BYTES : Nat := 120 * 1024 * 1024

/-- LOD configuration entry: FFT size and hop size. -/
structure LodConfig where
  fft_size : Nat
  hop_size : Nat
deriving DecidableEq, Repr

/-- Number of LOD levels. -/
def NUM_LODS : Nat := 4

/-- The LOD table from the source (`LOD_CONFIGS`): all levels share
`fft_size = 2048`; hop sizes are 2048, 512, 128, 32. -/
def LOD_CONFIGS : List LodConfig :=
  [⟨2048, 2048⟩, ⟨2048, 512⟩, ⟨2048, 128⟩, ⟨2048, 32⟩]

/-- Array indexing `LOD_CONFIGS[lod]`. Rust panics above `NUM_LODS`; the
model is only ever used with `lod < NUM_LODS` (theorems carry that bound). -/
def lodConfig (lod : Nat) : LodConfig := LOD_CONFIGS.getD lod ⟨2048, 2048⟩

/-- Source `select_lod(zoom)`: ideal LOD for the current zoom
(pixels per LOD1 column). -/
def select_lod (zoom : ℚ) : Nat :=
  if 8 ≤ zoom then 3
  else if 2 ≤ zoom then 2
  else if (1 : ℚ)/2 ≤ zoom then 1
  else 0

/-- Source `lod_ratio(lod)`: how many LOD-`lod` columns per LOD1 column. -/
def lod_ratio (lod : Nat) : ℚ :=
  ((lodConfig 1).hop_size : ℚ) / ((lodConfig lod).hop_size : ℚ)

/-- Source `tile_count_for_samples(total_samples, lod)`: number of tiles at `lod`
for a file with `total_samples` audio samples (source lines 63–68). -/
def tile_count_for_samples (total_samples : Nat) (lod : Nat) : Nat :=
  let config := lodConfig lod
  if total_samples < config.fft_size then 0
  else
    let total_cols := (total_samples - config.fft_size) / config.hop_size + 1
    (total_cols + TILE_COLS - 1) / TILE_COLS

/-- Source `fallback_tile_info(target_lod, target_tile, fallback_lod)`: map a tile
at one LOD to the (tile index, fractional sub-column window) at another LOD
covering the same sample range (source lines 73–90; `f64` modelled exactly
over `ℚ`, the `as usize` cast of the non-negative floor via `Int.toNat`). -/
def fallback_tile_info (target_lod : Nat) (target_tile : Nat) (fallback_lod : Nat) :
    Nat × ℚ × ℚ :=
  let target_hop := (lodConfig target_lod).hop_size
  let fb_hop := (lodConfig fallback_lod).hop_size
  let sample_start := target_tile * TILE_COLS * target_hop
  let sample_end := sample_start + TILE_COLS * target_hop
  let fb_col_start : ℚ := (sample_start : ℚ) / (fb_hop : ℚ)
  let fb_col_end : ℚ := (sample_end : ℚ) / (fb_hop : ℚ)
  let fb_tile : Nat := (⌊fb_col_start / (TILE_COLS : ℚ)⌋).toNat
  let fb_src_start : ℚ := fb_col_start - ((fb_tile * TILE_COLS : Nat) : ℚ)
  let fb_src_end : ℚ := fb_col_end - ((fb_tile * TILE_COLS : Nat) : ℚ)
  (fb_tile, fb_src_start, fb_src_end)

lemma lodConfig_fft_size (lod : Nat) (h : lod < NUM_LODS) :
    (lodConfig lod).fft_size = 2048 := by
  have h4 : lod < 4 := h
  interval_cases lod <;> rfl

lemma lodConfig_hop_pos (lod : Nat) (h : lod < NUM_LODS) :
    0 < (lodConfig lod).hop_size := by
  have h4 : lod < 4 := h
  interval_cases lod <;> decide

/-- C7: `tile_count_for_samples` is 0 below one FFT frame and otherwise the
ceiling formula over the STFT column count; the three special cases from the
spec follow. -/
theorem tile_count_formula (lod : Nat) (hlod : lod < NUM_LODS) :
    (∀ total_samples : Nat,
      (total_samples < (lodConfig lod).fft_size →
        tile_count_for_samples total_samples lod = 0) ∧
      ((lodConfig lod).fft_size ≤ total_samples →
        tile_count_for_samples total_samples lod =
          ((total_samples - (lodConfig lod).fft_size) / (lodConfig lod).hop_size + 1)
            ⌈/⌉ TILE_COLS)) ∧
    tile_count_for_samples 0 lod = 0 ∧
    tile_count_for_samples ((lodConfig lod).fft_size - 1) lod = 0 ∧
    (∀ k : Nat,
      tile_count_for_samples ((lodConfig lod).fft_size + k * (lodConfig lod).hop_size) lod =
        (k + 1) ⌈/⌉ TILE_COLS) := by
  have hfft : (lodConfig lod).fft_size = 2048 := lodConfig_fft_size lod hlod
  have hhop : 0 < (lodConfig lod).hop_size := lodConfig_hop_pos lod hlod
  refine ⟨fun total_samples => ⟨fun hlt => ?_, fun hge => ?_⟩, ?_, ?_, fun k => ?_⟩
  · simp [tile_count_for_samples, hlt]
  · rw [tile_count_for_samples, if_neg (by omega), Nat.ceilDiv_eq_add_pred_div]
  · simp [tile_count_for_samples, hfft]
  · simp [tile_count_for_samples, hfft]
  · rw [tile_count_for_samples, if_neg (by omega), Nat.ceilDiv_eq_add_pred_div]
    have : (lodConfig lod).fft_size + k * (lodConfig lod).hop_size
        - (lodConfig lod).fft_size = k * (lodConfig lod).hop_size := by omega
    rw [this, Nat.mul_div_cancel _ hhop]

/-- C7 witness: the formula evaluated at LOD 1. -/
theorem tile_count_formula_witness :
    1 < NUM_LODS ∧
    tile_count_for_samples 0 1 = 0 ∧
    tile_count_for_samples 2047 1 = 0 ∧
    tile_count_for_samples (2048 + 510 * 512) 1 = 511 ⌈/⌉ TILE_COLS := by
  have h := tile_count_formula 1 (by decide)
  refine ⟨by decide, h.2.1, ?_, ?_⟩
  · have := h.2.2.1
    simpa using this
  · have := h.2.2.2 510
    simpa using this

/-- C8: mapping a LOD to itself through `fallback_tile_info` is the
identity: the fallback tile is the target tile and the sub-column window is
the full `[0, TILE_COLS]` range. -/
theorem fallback_self_identity (target_lod : Nat) (hlod : target_lod < NUM_LODS)
    (target_tile : Nat) :
    fallback_tile_info target_lod target_tile target_lod =
      (target_tile, 0, (TILE_COLS : ℚ)) := by
  have hhop : 0 < (lodConfig target_lod).hop_size := lodConfig_hop_pos target_lod hlod
  set h := (lodConfig target_lod).hop_size with hh
  have hne : (h : ℚ) ≠ 0 := by exact_mod_cast hhop.ne'
  have htc : ((TILE_COLS : Nat) : ℚ) ≠ 0 := by norm_num [TILE_COLS]
  unfold fallback_tile_info
  rw [← hh]
  have hstart : ((target_tile * TILE_COLS * h : Nat) : ℚ) / (h : ℚ)
      = (target_tile : ℚ) * (TILE_COLS : ℚ) := by
    push_cast
    field_simp
  have hfloor : ⌊(target_tile : ℚ) * (TILE_COLS : ℚ) / (TILE_COLS : ℚ)⌋ = (target_tile : ℤ) := by
    rw [mul_div_assoc, div_self htc, mul_one]
    exact Int.floor_natCast target_tile
  simp only [hstart, hfloor, Int.toNat_natCast]
  refine Prod.ext rfl (Prod.ext ?_ ?_)
  · simp only []
    push_cast
    ring
  · simp only []
    push_cast
    field_simp
    ring

/-- C8 witness: LOD 2, tile 5 maps to itself. -/
theorem fallback_self_identity_witness :
    fallback_tile_info 2 5 2 = (5, 0, (TILE_COLS : ℚ)) :=
  fallback_self_identity 2 (by decide) 5

/-! ## The LRU tile cache (`struct TileCache`, source lines 104–174)

The `PreRendered` payload is abstracted by its byte length: `byte_len()` is
the only attribute of the payload the cache logic reads. -/

/-- Abstraction of the `PreRendered` payload: the cache logic only ever
reads `byte_len()`. -/
structure Rendered where
  byteLen : Nat
deriving DecidableEq, Repr

/-- Cache key: `(file_idx, lod, tile_idx)`. -/
abbrev CacheKey := Nat × Nat × Nat

/-- A cached tile (`struct Tile`). -/
structure Tile where
  tile_idx : Nat
  file_idx : Nat
  lod : Nat
  rendered : Rendered
deriving DecidableEq, Repr

/-- The LRU tile cache: `tiles` is the `HashMap` (association list with
distinct keys), `lru` is ordered oldest-first, `total_bytes` the byte
counter. -/
structure TileCache where
  tiles : List (CacheKey × Tile)
  lru : List CacheKey
  total_bytes : Nat
deriving DecidableEq, Repr

/-- Source `HashMap::get` on the association list. -/
def findTile (key : CacheKey) : List (CacheKey × Tile) → Option Tile
  | [] => none
  | (k, t) :: rest => if k = key then some t else findTile key rest

/-- Source `TileCache::new()`. -/
def TileCache.new : TileCache := ⟨[], [], 0⟩

/-- The eviction loop inside `TileCache::insert`: while
`total_bytes + bytes > MAX_BYTES` and the LRU queue is non-empty, pop the
oldest key and remove its entry. Returns the final `(lru, tiles, total)`. -/
def evictLoop (bytes : Nat) :
    List CacheKey → List (CacheKey × Tile) → Nat →
    List CacheKey × List (CacheKey × Tile) × Nat
  | [], tiles, total => ([], tiles, total)
  | oldest :: rest, tiles, total =>
    if MAX_BYTES < total + bytes then
      match findTile oldest tiles with
      | some evicted =>
          evictLoop bytes rest (tiles.filter (fun kt => kt.1 ≠ oldest))
            (total - evicted.rendered.byteLen)
      | none => evictLoop bytes rest tiles total
    else (oldest :: rest, tiles, total)

/-- The "remove old entry if replacing" prologue of `TileCache::insert`:
returns the `(tiles, lru, total_bytes)` triple after removing any existing
entry under `key`. -/
def removeOld (c : TileCache) (key : CacheKey) :
    List (CacheKey × Tile) × List CacheKey × Nat :=
  match findTile key c.tiles with
  | some old =>
      (c.tiles.filter (fun kt => kt.1 ≠ key), c.lru.filter (fun k => k ≠ key),
       c.total_bytes - old.rendered.byteLen)
  | none => (c.tiles, c.lru, c.total_bytes)

/-- Source `TileCache::insert` (source lines 116–134): remove an old entry under
the same key, evict oldest entries until under the cap, then insert and
mark most-recently-used. -/
def TileCache.insert (c : TileCache) (file_idx lod tile_idx : Nat)
    (rendered : Rendered) : TileCache :=
  let key : CacheKey := (file_idx, lod, tile_idx)
  let removed := removeOld c key
  let evicted := evictLoop rendered.byteLen removed.2.1 removed.1 removed.2.2
  { tiles := (key, ⟨tile_idx, file_idx, lod, rendered⟩) :: evicted.2.1,
    lru := evicted.1 ++ [key],
    total_bytes := evicted.2.2 + rendered.byteLen }

/-- Source `TileCache::get` (no recency side effect). -/
def TileCache.get (c : TileCache) (file_idx lod tile_idx : Nat) : Option Tile :=
  findTile (file_idx, lod, tile_idx) c.tiles

/-- Source `TileCache::touch`: mark a key most-recently-used. -/
def TileCache.touch (c : TileCache) (key : CacheKey) : TileCache :=
  { c with lru := c.lru.filter (fun k => k ≠ key) ++ [key] }

/-- One iteration of the removal loops in `evict_far_from` /
`clear_for_file`: remove the entry under `key`, subtract its bytes and drop
it from the LRU queue (no-op when absent). -/
def TileCache.removeKey (c : TileCache) (key : CacheKey) : TileCache :=
  match findTile key c.tiles with
  | some evicted =>
      { tiles := c.tiles.filter (fun kt => kt.1 ≠ key),
        lru := c.lru.filter (fun k => k ≠ key),
        total_bytes := c.total_bytes - evicted.rendered.byteLen }
  | none => c

/-- Source `TileCache::evict_far_from` (source lines 145–157). -/
def TileCache.evict_far_from (c : TileCache)
    (file_idx lod center_tile keep_radius : Nat) : TileCache :=
  let keys_to_evict := (c.tiles.map Prod.fst).filter
    (fun k => decide (k.1 = file_idx ∧ k.2.1 = lod ∧
      keep_radius < Nat.dist k.2.2 center_tile))
  keys_to_evict.foldl TileCache.removeKey c

/-- Source `TileCache::clear_for_file` (source lines 159–167). -/
def TileCache.clear_for_file (c : TileCache) (file_idx : Nat) : TileCache :=
  let keys := (c.tiles.map Prod.fst).filter (fun k => decide (k.1 = file_idx))
  keys.foldl TileCache.removeKey c

/-- Source `TileCache::clear_all`. -/
def TileCache.clear_all (_c : TileCache) : TileCache := ⟨[], [], 0⟩

/-- The sequence of cache operations quantified over in the claims. -/
inductive CacheOp where
  | insert (file_idx lod tile_idx : Nat) (rendered : Rendered)
  | get (file_idx lod tile_idx : Nat)
  | touch (key : CacheKey)
  | evictFarFrom (file_idx lod center_tile keep_radius : Nat)
  | clearForFile (file_idx : Nat)
  | clearAll

/-- Apply one operation (`get` takes `&self` and does not mutate). -/
def applyOp (c : TileCache) : CacheOp → TileCache
  | .insert fi lod ti r => c.insert fi lod ti r
  | .get _ _ _ => c
  | .touch k => c.touch k
  | .evictFarFrom fi lod ct kr => c.evict_far_from fi lod ct kr
  | .clearForFile fi => c.clear_for_file fi
  | .clearAll => c.clear_all

/-- Run a sequence of operations from the empty cache. -/
def runOps (ops : List CacheOp) : TileCache := ops.foldl applyOp TileCache.new

/-- Sum of `byte_len` over all tiles currently in the map. -/
def sumBytes (tiles : List (CacheKey × Tile)) : Nat :=
  (tiles.map (fun kt => kt.2.rendered.byteLen)).sum

/-- Well-formedness: distinct keys (the `HashMap` representation
invariant), the byte counter equals the sum over the map, and every key of
the map occurs in the LRU queue. -/
structure TileCache.WF (c : TileCache) : Prop where
  nodup : (c.tiles.map Prod.fst).Nodup
  total_eq : c.total_bytes = sumBytes c.tiles
  keys_sub_lru : ∀ k ∈ c.tiles.map Prod.fst, k ∈ c.lru

lemma findTile_eq_none_iff (key : CacheKey) (tiles : List (CacheKey × Tile)) :
    findTile key tiles = none ↔ key ∉ tiles.map Prod.fst := by
  induction tiles with
  | nil => simp [findTile]
  | cons kt rest ih =>
    obtain ⟨k, t⟩ := kt
    by_cases hk : k = key
    · subst hk
      simp [findTile]
    · simp [findTile, hk, ih, Ne.symm hk]

lemma filter_ne_eq_self_of_not_mem (key : CacheKey) (tiles : List (CacheKey × Tile))
    (h : key ∉ tiles.map Prod.fst) :
    tiles.filter (fun kt => kt.1 ≠ key) = tiles := by
  apply List.filter_eq_self.2
  intro kt hkt
  simp only [ne_eq, decide_eq_true_eq]
  intro heq
  exact h (heq ▸ List.mem_map_of_mem Prod.fst hkt)

lemma keys_filter_sublist (p : CacheKey × Tile → Bool) (tiles : List (CacheKey × Tile)) :
    ((tiles.filter p).map Prod.fst).Sublist (tiles.map Prod.fst) :=
  (List.filter_sublist tiles).map Prod.fst

lemma sumBytes_remove (key : CacheKey) (t : Tile) (tiles : List (CacheKey × Tile))
    (hnodup : (tiles.map Prod.fst).Nodup) (hfind : findTile key tiles = some t) :
    sumBytes (tiles.filter (fun kt => kt.1 ≠ key)) + t.rendered.byteLen
      = sumBytes tiles := by
  induction tiles with
  | nil => simp [findTile] at hfind
  | cons kt rest ih =>
    obtain ⟨k, t'⟩ := kt
    simp only [List.map_cons, List.nodup_cons] at hnodup
    rcases eq_or_ne k key with rfl | hk
    · rw [findTile, if_pos rfl] at hfind
      injection hfind with ht
      subst ht
      have hrest : rest.filter (fun kt => kt.1 ≠ k) = rest :=
        filter_ne_eq_self_of_not_mem k rest hnodup.1
      rw [List.filter_cons, if_neg (by simp), hrest]
      simp only [sumBytes, List.map_cons, List.sum_cons]
      omega
    · rw [findTile, if_neg hk] at hfind
      have hih := ih hnodup.2 hfind
      rw [List.filter_cons, if_pos (by simpa using hk)]
      simp only [sumBytes, List.map_cons, List.sum_cons] at hih ⊢
      omega

lemma evictLoop_spec (bytes : Nat) (lru : List CacheKey)
    (tiles : List (CacheKey × Tile)) (total : Nat)
    (hnodup : (tiles.map Prod.fst).Nodup) (htotal : total = sumBytes tiles)
    (hsub : ∀ k ∈ tiles.map Prod.fst, k ∈ lru) :
    ∀ lru₁ tiles₁ total₁, evictLoop bytes lru tiles total = (lru₁, tiles₁, total₁) →
      (tiles₁.map Prod.fst).Nodup ∧ total₁ = sumBytes tiles₁ ∧
      (∀ k ∈ tiles₁.map Prod.fst, k ∈ lru₁) ∧
      (total₁ + bytes ≤ MAX_BYTES ∨ tiles₁ = []) ∧
      tiles₁.Sublist tiles := by
  induction lru generalizing tiles total with
  | nil =>
    intro lru₁ tiles₁ total₁ heq
    have hempty : tiles = [] := by
      cases tiles with
      | nil => rfl
      | cons kt rest =>
        exfalso
        exact (List.not_mem_nil kt.1)
          (hsub kt.1 (List.mem_map_of_mem Prod.fst (List.mem_cons_self kt rest)))
    subst hempty
    rw [evictLoop] at heq
    injection heq with h1 heq'
    injection heq' with h2 h3
    subst h1; subst h2; subst h3
    exact ⟨List.nodup_nil, by simpa [sumBytes] using htotal, by simp,
      Or.inr rfl, List.Sublist.refl _⟩
  | cons oldest rest ih =>
    intro lru₁ tiles₁ total₁ heq
    by_cases hcap : MAX_BYTES < total + bytes
    · rw [evictLoop, if_pos hcap] at heq
      cases hfind : findTile oldest tiles with
      | some evicted =>
        rw [hfind] at heq
        have hnodup' : ((tiles.filter (fun kt => kt.1 ≠ oldest)).map Prod.fst).Nodup :=
          (keys_filter_sublist _ tiles).nodup hnodup
        have hsum := sumBytes_remove oldest evicted tiles hnodup hfind
        have htotal' : total - evicted.rendered.byteLen
            = sumBytes (tiles.filter (fun kt => kt.1 ≠ oldest)) := by omega
        have hsub' : ∀ k ∈ (tiles.filter (fun kt => kt.1 ≠ oldest)).map Prod.fst,
            k ∈ rest := by
          intro k hk
          obtain ⟨kt, hmem, hfst⟩ := List.mem_map.1 hk
          have hkt := List.mem_filter.1 hmem
          have hne : k ≠ oldest := by
            have := hkt.2
            simp only [ne_eq, decide_eq_true_eq] at this
            exact hfst ▸ this
          have := hsub k (List.mem_map.2 ⟨kt, hkt.1, hfst⟩)
          simp only [List.mem_cons] at this
          exact this.resolve_left hne
        have := ih _ _ hnodup' htotal' hsub' _ _ _ heq
        exact ⟨this.1, this.2.1, this.2.2.1, this.2.2.2.1,
          this.2.2.2.2.trans (List.filter_sublist tiles)⟩
      | none =>
        rw [hfind] at heq
        have hsub' : ∀ k ∈ tiles.map Prod.fst, k ∈ rest := by
          intro k hk
          have hne : k ≠ oldest := by
            intro hkeq
            exact ((findTile_eq_none_iff oldest tiles).1 hfind) (hkeq ▸ hk)
          have := hsub k hk
          simp only [List.mem_cons] at this
          exact this.resolve_left hne
        exact ih _ _ hnodup htotal hsub' _ _ _ heq
    · rw [evictLoop, if_neg hcap] at heq
      injection heq with h1 heq'
      injection heq' with h2 h3
      subst h1; subst h2; subst h3
      exact ⟨hnodup, htotal, fun k hk => hsub k hk, Or.inl (by omega),
        List.Sublist.refl tiles⟩

lemma removeOld_spec (c : TileCache) (hWF : c.WF) (key : CacheKey) :
    ∀ tiles₀ lru₀ total₀, removeOld c key = (tiles₀, lru₀, total₀) →
      (tiles₀.map Prod.fst).Nodup ∧ total₀ = sumBytes tiles₀ ∧
      (∀ k ∈ tiles₀.map Prod.fst, k ∈ lru₀) ∧ key ∉ tiles₀.map Prod.fst := by
  intro tiles₀ lru₀ total₀ heq
  rw [removeOld] at heq
  cases hfind : findTile key c.tiles with
  | some old =>
    rw [hfind] at heq
    injection heq with h1 heq'
    injection heq' with h2 h3
    subst h1; subst h2; subst h3
    refine ⟨(keys_filter_sublist _ c.tiles).nodup hWF.nodup, ?_, ?_, ?_⟩
    · have := sumBytes_remove key old c.tiles hWF.nodup hfind
      have := hWF.total_eq
      omega
    · intro k hk
      obtain ⟨kt, hmem, hfst⟩ := List.mem_map.1 hk
      have hkt := List.mem_filter.1 hmem
      have hne : k ≠ key := by
        have := hkt.2
        simp only [ne_eq, decide_eq_true_eq] at this
        exact hfst ▸ this
      have := hWF.keys_sub_lru k (List.mem_map.2 ⟨kt, hkt.1, hfst⟩)
      exact List.mem_filter.2 ⟨this, by simpa using hne⟩
    · intro hk
      obtain ⟨kt, hmem, hfst⟩ := List.mem_map.1 hk
      have := (List.mem_filter.1 hmem).2
      simp only [ne_eq, decide_eq_true_eq] at this
      exact this hfst
  | none =>
    rw [hfind] at heq
    injection heq with h1 heq'
    injection heq' with h2 h3
    subst h1; subst h2; subst h3
    exact ⟨hWF.nodup, hWF.total_eq, hWF.keys_sub_lru,
      (findTile_eq_none_iff key c.tiles).1 hfind⟩

/-- Source `insert` preserves well-formedness, and leaves
`total_bytes ≤ MAX_BYTES` whenever the inserted payload itself fits. -/
lemma insert_WF (c : TileCache) (hWF : c.WF) (fi lod ti : Nat) (r : Rendered) :
    (c.insert fi lod ti r).WF ∧
    (r.byteLen ≤ MAX_BYTES → (c.insert fi lod ti r).total_bytes ≤ MAX_BYTES) := by
  rcases hrm : removeOld c (fi, lod, ti) with ⟨tiles₀, lru₀, total₀⟩
  obtain ⟨hnodup₀, htotal₀, hsub₀, hkey₀⟩ := removeOld_spec c hWF (fi, lod, ti) _ _ _ hrm
  rcases hev : evictLoop r.byteLen lru₀ tiles₀ total₀ with ⟨lru₁, tiles₁, total₁⟩
  obtain ⟨hnodup₁, htotal₁, hsub₁, hcap₁, hsubl₁⟩ :=
    evictLoop_spec r.byteLen lru₀ tiles₀ total₀ hnodup₀ htotal₀ hsub₀ _ _ _ hev
  have hkey₁ : (fi, lod, ti) ∉ tiles₁.map Prod.fst := fun hk =>
    hkey₀ ((hsubl₁.map Prod.fst).mem hk)
  have hres : c.insert fi lod ti r =
      { tiles := ((fi, lod, ti), ⟨ti, fi, lod, r⟩) :: tiles₁,
        lru := lru₁ ++ [(fi, lod, ti)],
        total_bytes := total₁ + r.byteLen } := by
    simp only [TileCache.insert, hrm, hev]
  rw [hres]
  constructor
  · refine ⟨?_, ?_, ?_⟩
    · rw [List.map_cons]
      exact List.nodup_cons.2 ⟨hkey₁, hnodup₁⟩
    · simp only [sumBytes, List.map_cons, List.sum_cons]
      simp only [sumBytes] at htotal₁
      omega
    · intro k hk
      simp only [List.map_cons, List.mem_cons] at hk
      rcases hk with rfl | hk
      · simp
      · exact List.mem_append.2 (Or.inl (hsub₁ k hk))
  · intro hfit
    rcases hcap₁ with hle | hempty
    · simpa using hle
    · rw [hempty] at htotal₁
      simp only [sumBytes, List.map_nil, List.sum_nil] at htotal₁
      simpa [htotal₁] using hfit

/-- Source `removeKey` preserves well-formedness. -/
lemma removeKey_WF (c : TileCache) (hWF : c.WF) (key : CacheKey) :
    (c.removeKey key).WF := by
  unfold TileCache.removeKey
  cases hfind : findTile key c.tiles with
  | some evicted =>
    refine ⟨(keys_filter_sublist _ c.tiles).nodup hWF.nodup, ?_, ?_⟩
    · have := sumBytes_remove key evicted c.tiles hWF.nodup hfind
      have := hWF.total_eq
      simp only
      omega
    · intro k hk
      obtain ⟨kt, hmem, hfst⟩ := List.mem_map.1 hk
      have hkt := List.mem_filter.1 hmem
      have hne : k ≠ key := by
        have := hkt.2
        simp only [ne_eq, decide_eq_true_eq] at this
        exact hfst ▸ this
      have := hWF.keys_sub_lru k (List.mem_map.2 ⟨kt, hkt.1, hfst⟩)
      exact List.mem_filter.2 ⟨this, by simpa using hne⟩
  | none => exact hWF

lemma foldl_removeKey_WF (keys : List CacheKey) (c : TileCache) (hWF : c.WF) :
    (keys.foldl TileCache.removeKey c).WF := by
  induction keys generalizing c with
  | nil => exact hWF
  | cons k rest ih => exact ih _ (removeKey_WF c hWF k)

/-- Every cache operation preserves well-formedness. -/
lemma applyOp_WF (c : TileCache) (hWF : c.WF) (op : CacheOp) : (applyOp c op).WF := by
  cases op with
  | insert fi lod ti r => exact (insert_WF c hWF fi lod ti r).1
  | get fi lod ti => exact hWF
  | touch key =>
    refine ⟨hWF.nodup, hWF.total_eq, ?_⟩
    intro k hk
    have := hWF.keys_sub_lru k hk
    by_cases hkk : k = key
    · subst hkk
      exact List.mem_append.2 (Or.inr (List.mem_singleton.2 rfl))
    · exact List.mem_append.2 (Or.inl (List.mem_filter.2 ⟨this, by simpa using hkk⟩))
  | evictFarFrom fi lod ct kr => exact foldl_removeKey_WF _ c hWF
  | clearForFile fi => exact foldl_removeKey_WF _ c hWF
  | clearAll =>
    refine ⟨List.nodup_nil, rfl, ?_⟩
    intro k hk
    simp [applyOp, TileCache.clear_all] at hk

lemma new_WF : TileCache.new.WF := by
  refine ⟨List.nodup_nil, rfl, ?_⟩
  intro k hk
  simp [TileCache.new] at hk

lemma foldl_applyOp_WF (ops : List CacheOp) (c : TileCache) (hWF : c.WF) :
    (ops.foldl applyOp c).WF := by
  induction ops generalizing c with
  | nil => exact hWF
  | cons op rest ih => exact ih _ (applyOp_WF c hWF op)

lemma runOps_WF (ops : List CacheOp) : (runOps ops).WF :=
  foldl_applyOp_WF ops TileCache.new new_WF

/-- C1 counterexample: starting from the empty cache, inserting a single
tile whose `byte_len` exceeds `MAX_BYTES` leaves
`total_bytes = MAX_BYTES + 1 > MAX_BYTES` — the eviction loop stops once
the LRU queue is empty and the insert then grows past the cap. -/
theorem lru_cap_counterexample :
    (runOps [CacheOp.insert 0 1 0 ⟨MAX_BYTES + 1⟩]).total_bytes = MAX_BYTES + 1 ∧
    ¬ ((runOps [CacheOp.insert 0 1 0 ⟨MAX_BYTES + 1⟩]).total_bytes ≤ MAX_BYTES) := by
  constructor
  · rfl
  · decide

/-- C1 (amended): after any operation sequence followed by an `insert`,
`total_bytes` equals the sum of `byte_len` over the tiles in the map, and
`total_bytes ≤ MAX_BYTES` holds provided the inserted tile's own `byte_len`
is at most `MAX_BYTES` (a single oversized tile is the one exception). -/
theorem lru_insert_invariant (ops : List CacheOp) (fi lod ti : Nat) (r : Rendered) :
    (runOps (ops ++ [CacheOp.insert fi lod ti r])).total_bytes
      = sumBytes (runOps (ops ++ [CacheOp.insert fi lod ti r])).tiles ∧
    (r.byteLen ≤ MAX_BYTES →
      (runOps (ops ++ [CacheOp.insert fi lod ti r])).total_bytes ≤ MAX_BYTES) := by
  have hrun : runOps (ops ++ [CacheOp.insert fi lod ti r])
      = (runOps ops).insert fi lod ti r := by
    rw [runOps, List.foldl_append]
    rfl
  have hWF := runOps_WF ops
  rw [hrun]
  exact ⟨((insert_WF _ hWF fi lod ti r).1).total_eq,
    (insert_WF _ hWF fi lod ti r).2⟩

/-- C1 witness: a concrete insert of a 4-byte tile into the empty cache. -/
theorem lru_insert_invariant_witness :
    (runOps [CacheOp.insert 0 1 0 ⟨4⟩]).total_bytes
      = sumBytes (runOps [CacheOp.insert 0 1 0 ⟨4⟩]).tiles ∧
    (runOps [CacheOp.insert 0 1 0 ⟨4⟩]).total_bytes ≤ MAX_BYTES :=
  ⟨(lru_insert_invariant [] 0 1 0 ⟨4⟩).1,
   (lru_insert_invariant [] 0 1 0 ⟨4⟩).2 (by decide)⟩

/-! ## The async scheduler with in-flight deduplication

State of the thread-local cells (`CACHE`/`IN_FLIGHT`, `FLOW_CACHE`/
`FLOW_IN_FLIGHT`, `REASSIGN_CACHE`/`REASSIGN_IN_FLIGHT`) plus the pool of
spawned-but-unfinished async tasks (`pending`) and a ledger of Analysis
Backend invocations (`calls`, appended each time a task body reaches a
`compute_*` call). The synchronous prologue of each `schedule_*` function
is one state transition; everything an async task body does is a single
atomic completion transition (the source is single-threaded and the body
performs all its cache mutation between two yields). -/

/-- Flow rendering algorithm selector (`FlowAlgo` in
`spectrogram_renderer.rs`; the scheduler prologue does not branch on it). -/
inductive FlowAlgo where
  | optical
  | centroid
  | gradient
  | phaseCoherence
  | phase
deriving DecidableEq, Repr

/-- Which schedule routine spawned a pending task. -/
inductive TaskKind where
  | magLod
  | magTile
  | flow
  | reassign
deriving DecidableEq, Repr

/-- How a task body terminates: `abandoned` (the source file is gone or
changed before the backend ran, or the sample range is empty), `emptyCols`
(the Analysis Backend ran but produced no columns), or `success` with a
rendered payload. -/
inductive TaskOutcome where
  | abandoned
  | emptyCols
  | success (r : Rendered)
deriving DecidableEq, Repr

/-- The scheduler state: three cache/in-flight pairs, pending tasks and the
backend-invocation ledger. -/
structure SchedState where
  cache : TileCache
  inFlight : List CacheKey
  flowCache : TileCache
  flowInFlight : List CacheKey
  reassignCache : TileCache
  reassignInFlight : List CacheKey
  pending : List (TaskKind × CacheKey)
  calls : List (TaskKind × CacheKey)
deriving DecidableEq, Repr

/-- All cells start empty. -/
def SchedState.init : SchedState :=
  ⟨TileCache.new, [], TileCache.new, [], TileCache.new, [], [], []⟩

/-- Synchronous prologue of `schedule_tile_lod` (source lines 299–318):
dedup against the cache and the in-flight set, bounds-check against
`tile_count_for_samples` (`total_samples` models the untracked read of the
file's sample count), then mark in-flight and spawn the task. -/
def schedule_tile_lod (file_idx lod tile_idx total_samples : Nat)
    (s : SchedState) : SchedState :=
  let key : CacheKey := (file_idx, lod, tile_idx)
  if findTile key s.cache.tiles ≠ none then s
  else if key ∈ s.inFlight then s
  else if tile_count_for_samples total_samples lod ≤ tile_idx then s
  else { s with inFlight := key :: s.inFlight,
                pending := (TaskKind.magLod, key) :: s.pending }

/-- Synchronous prologue of `schedule_tile` (source lines 370–374): LOD1,
dedup checks only — no bounds check. -/
def schedule_tile (file_idx tile_idx : Nat) (s : SchedState) : SchedState :=
  let key : CacheKey := (file_idx, 1, tile_idx)
  if findTile key s.cache.tiles ≠ none then s
  else if key ∈ s.inFlight then s
  else { s with inFlight := key :: s.inFlight,
                pending := (TaskKind.magTile, key) :: s.pending }

/-- Synchronous prologue of `schedule_flow_tile` (source lines 749–768). -/
def schedule_flow_tile (file_idx lod tile_idx total_samples : Nat)
    (_algo : FlowAlgo) (s : SchedState) : SchedState :=
  let key : CacheKey := (file_idx, lod, tile_idx)
  if findTile key s.flowCache.tiles ≠ none then s
  else if key ∈ s.flowInFlight then s
  else if tile_count_for_samples total_samples lod ≤ tile_idx then s
  else { s with flowInFlight := key :: s.flowInFlight,
                pending := (TaskKind.flow, key) :: s.pending }

/-- Synchronous prologue of `schedule_reassign_tile`
(source lines 891–909). -/
def schedule_reassign_tile (file_idx lod tile_idx total_samples : Nat)
    (s : SchedState) : SchedState :=
  let key : CacheKey := (file_idx, lod, tile_idx)
  if findTile key s.reassignCache.tiles ≠ none then s
  else if key ∈ s.reassignInFlight then s
  else if tile_count_for_samples total_samples lod ≤ tile_idx then s
  else { s with reassignInFlight := key :: s.reassignInFlight,
                pending := (TaskKind.reassign, key) :: s.pending }

/-- The task body of `schedule_tile_lod` (source lines 319–363), run as one
atomic step: on abandonment remove the in-flight entry; otherwise the
backend is invoked (ledger), the in-flight entry removed, and on non-empty
columns the tile inserted. -/
def complete_mag_lod (key : CacheKey) (o : TaskOutcome) (s : SchedState) :
    SchedState :=
  let s := { s with pending := s.pending.erase (TaskKind.magLod, key) }
  match o with
  | .abandoned => { s with inFlight := s.inFlight.filter (fun k => k ≠ key) }
  | .emptyCols =>
      { s with inFlight := s.inFlight.filter (fun k => k ≠ key),
               calls := (TaskKind.magLod, key) :: s.calls }
  | .success r =>
      { s with inFlight := s.inFlight.filter (fun k => k ≠ key),
               calls := (TaskKind.magLod, key) :: s.calls,
               cache := s.cache.insert key.1 key.2.1 key.2.2 r }

/-- The task body of `schedule_tile` (source lines 376–408): renders from
in-memory columns (no Analysis Backend call); `emptyCols` models the empty
column-range early return. -/
def complete_mag_tile (key : CacheKey) (o : TaskOutcome) (s : SchedState) :
    SchedState :=
  let s := { s with pending := s.pending.erase (TaskKind.magTile, key) }
  match o with
  | .abandoned => { s with inFlight := s.inFlight.filter (fun k => k ≠ key) }
  | .emptyCols => { s with inFlight := s.inFlight.filter (fun k => k ≠ key) }
  | .success r =>
      { s with inFlight := s.inFlight.filter (fun k => k ≠ key),
               cache := s.cache.insert key.1 key.2.1 key.2.2 r }

/-- The task body of `schedule_flow_tile` (source lines 774–852). -/
def complete_flow (key : CacheKey) (o : TaskOutcome) (s : SchedState) :
    SchedState :=
  let s := { s with pending := s.pending.erase (TaskKind.flow, key) }
  match o with
  | .abandoned => { s with flowInFlight := s.flowInFlight.filter (fun k => k ≠ key) }
  | .emptyCols =>
      { s with flowInFlight := s.flowInFlight.filter (fun k => k ≠ key),
               calls := (TaskKind.flow, key) :: s.calls }
  | .success r =>
      { s with flowInFlight := s.flowInFlight.filter (fun k => k ≠ key),
               calls := (TaskKind.flow, key) :: s.calls,
               flowCache := s.flowCache.insert key.1 key.2.1 key.2.2 r }

/-- The task body of `schedule_reassign_tile` (source lines 915–954); the
backend (`compute_reassigned_tile`) always yields a tile, so there is no
empty-columns path — `emptyCols` is mapped to the abandonment behaviour. -/
def complete_reassign (key : CacheKey) (o : TaskOutcome) (s : SchedState) :
    SchedState :=
  let s := { s with pending := s.pending.erase (TaskKind.reassign, key) }
  match o with
  | .abandoned =>
      { s with reassignInFlight := s.reassignInFlight.filter (fun k => k ≠ key) }
  | .emptyCols =>
      { s with reassignInFlight := s.reassignInFlight.filter (fun k => k ≠ key) }
  | .success r =>
      { s with reassignInFlight := s.reassignInFlight.filter (fun k => k ≠ key),
               calls := (TaskKind.reassign, key) :: s.calls,
               reassignCache := s.reassignCache.insert key.1 key.2.1 key.2.2 r }

/-- Public `clear_file` (source lines 269–272): clear the magnitude cache
for a file and drop its in-flight keys. -/
def clear_file (file_idx : Nat) (s : SchedState) : SchedState :=
  { s with cache := s.cache.clear_for_file file_idx,
           inFlight := s.inFlight.filter (fun k => k.1 ≠ file_idx) }

/-- Public `clear_all_tiles`. -/
def clear_all_tiles (s : SchedState) : SchedState :=
  { s with cache := s.cache.clear_all, inFlight := [] }

/-- Public `clear_flow_file`. -/
def clear_flow_file (file_idx : Nat) (s : SchedState) : SchedState :=
  { s with flowCache := s.flowCache.clear_for_file file_idx,
           flowInFlight := s.flowInFlight.filter (fun k => k.1 ≠ file_idx) }

/-- Public `clear_flow_cache`. -/
def clear_flow_cache (s : SchedState) : SchedState :=
  { s with flowCache := s.flowCache.clear_all, flowInFlight := [] }

/-- Public `clear_reassign_file`. -/
def clear_reassign_file (file_idx : Nat) (s : SchedState) : SchedState :=
  { s with reassignCache := s.reassignCache.clear_for_file file_idx,
           reassignInFlight := s.reassignInFlight.filter (fun k => k.1 ≠ file_idx) }

/-- Public `clear_reassign_cache`. -/
def clear_reassign_cache (s : SchedState) : SchedState :=
  { s with reassignCache := s.reassignCache.clear_all, reassignInFlight := [] }

/-- Public `evict_far`. -/
def evict_far (file_idx lod center_tile keep_radius : Nat) (s : SchedState) :
    SchedState :=
  { s with cache := s.cache.evict_far_from file_idx lod center_tile keep_radius }

/-- Public `borrow_tile`: touch the LRU entry when present. -/
def borrow_tile (file_idx lod tile_idx : Nat) (s : SchedState) : SchedState :=
  let key : CacheKey := (file_idx, lod, tile_idx)
  if findTile key s.cache.tiles ≠ none then { s with cache := s.cache.touch key }
  else s

/-- The scheduler step relation: schedule prologues, atomic task
completions (only for actually pending tasks), invalidation entry points,
spatial eviction and LRU touches. -/
inductive Step : SchedState → SchedState → Prop where
  | schedTileLod (fi lod ti ts : Nat) (s : SchedState) :
      Step s (schedule_tile_lod fi lod ti ts s)
  | schedTile (fi ti : Nat) (s : SchedState) : Step s (schedule_tile fi ti s)
  | schedFlow (fi lod ti ts : Nat) (algo : FlowAlgo) (s : SchedState) :
      Step s (schedule_flow_tile fi lod ti ts algo s)
  | schedReassign (fi lod ti ts : Nat) (s : SchedState) :
      Step s (schedule_reassign_tile fi lod ti ts s)
  | completeMagLod (key : CacheKey) (o : TaskOutcome) (s : SchedState)
      (h : (TaskKind.magLod, key) ∈ s.pending) : Step s (complete_mag_lod key o s)
  | completeMagTile (key : CacheKey) (o : TaskOutcome) (s : SchedState)
      (h : (TaskKind.magTile, key) ∈ s.pending) : Step s (complete_mag_tile key o s)
  | completeFlow (key : CacheKey) (o : TaskOutcome) (s : SchedState)
      (h : (TaskKind.flow, key) ∈ s.pending) : Step s (complete_flow key o s)
  | completeReassign (key : CacheKey) (o : TaskOutcome) (s : SchedState)
      (h : (TaskKind.reassign, key) ∈ s.pending) : Step s (complete_reassign key o s)
  | stepClearFile (fi : Nat) (s : SchedState) : Step s (clear_file fi s)
  | stepClearAll (s : SchedState) : Step s (clear_all_tiles s)
  | stepClearFlowFile (fi : Nat) (s : SchedState) : Step s (clear_flow_file fi s)
  | stepClearFlowAll (s : SchedState) : Step s (clear_flow_cache s)
  | stepClearReassignFile (fi : Nat) (s : SchedState) : Step s (clear_reassign_file fi s)
  | stepClearReassignAll (s : SchedState) : Step s (clear_reassign_cache s)
  | stepEvictFar (fi lod ct kr : Nat) (s : SchedState) :
      Step s (evict_far fi lod ct kr s)
  | stepBorrow (fi lod ti : Nat) (s : SchedState) : Step s (borrow_tile fi lod ti s)

/-- States reachable by the scheduler step relation from the initial
(empty) state. -/
inductive Reach : SchedState → Prop where
  | init : Reach SchedState.init
  | step {s s' : SchedState} (hr : Reach s) (hs : Step s s') : Reach s'

lemma findTile_none_of_sublist (key : CacheKey) {t₁ t₂ : List (CacheKey × Tile)}
    (h : t₁.Sublist t₂) (hn : findTile key t₂ = none) : findTile key t₁ = none := by
  rw [findTile_eq_none_iff] at hn ⊢
  exact fun hm => hn ((h.map Prod.fst).mem hm)

lemma removeOld_tiles_sublist (c : TileCache) (key : CacheKey) :
    ∀ tiles₀ lru₀ total₀, removeOld c key = (tiles₀, lru₀, total₀) →
      tiles₀.Sublist c.tiles := by
  intro tiles₀ lru₀ total₀ heq
  rw [removeOld] at heq
  cases hfind : findTile key c.tiles with
  | some old =>
    rw [hfind] at heq
    injection heq with h1 _
    exact h1 ▸ List.filter_sublist c.tiles
  | none =>
    rw [hfind] at heq
    injection heq with h1 _
    exact h1 ▸ List.Sublist.refl c.tiles

lemma evictLoop_tiles_sublist (bytes : Nat) (lru : List CacheKey)
    (tiles : List (CacheKey × Tile)) (total : Nat) :
    ∀ lru₁ tiles₁ total₁, evictLoop bytes lru tiles total = (lru₁, tiles₁, total₁) →
      tiles₁.Sublist tiles := by
  induction lru generalizing tiles total with
  | nil =>
    intro lru₁ tiles₁ total₁ heq
    rw [evictLoop] at heq
    injection heq with _ heq'
    injection heq' with h2 _
    exact h2 ▸ List.Sublist.refl tiles
  | cons oldest rest ih =>
    intro lru₁ tiles₁ total₁ heq
    rw [evictLoop] at heq
    by_cases hcap : MAX_BYTES < total + bytes
    · rw [if_pos hcap] at heq
      cases hfind : findTile oldest tiles with
      | some evicted =>
        rw [hfind] at heq
        exact (ih _ _ _ _ _ heq).trans (List.filter_sublist tiles)
      | none =>
        rw [hfind] at heq
        exact ih _ _ _ _ _ heq
    · rw [if_neg hcap] at heq
      injection heq with _ heq'
      injection heq' with h2 _
      exact h2 ▸ List.Sublist.refl tiles

/-- Source `insert` never resurrects an absent key other than the one inserted. -/
lemma findTile_insert_ne (c : TileCache) (fi lod ti : Nat) (r : Rendered)
    (k' : CacheKey) (hne : k' ≠ (fi, lod, ti))
    (hnone : findTile k' c.tiles = none) :
    findTile k' (c.insert fi lod ti r).tiles = none := by
  rcases hrm : removeOld c (fi, lod, ti) with ⟨tiles₀, lru₀, total₀⟩
  rcases hev : evictLoop r.byteLen lru₀ tiles₀ total₀ with ⟨lru₁, tiles₁, total₁⟩
  have hres : (c.insert fi lod ti r).tiles
      = ((fi, lod, ti), ⟨ti, fi, lod, r⟩) :: tiles₁ := by
    simp only [TileCache.insert, hrm, hev]
  rw [hres, findTile, if_neg (Ne.symm hne)]
  exact findTile_none_of_sublist k'
    ((evictLoop_tiles_sublist r.byteLen lru₀ tiles₀ total₀ _ _ _ hev).trans
      (removeOld_tiles_sublist c (fi, lod, ti) _ _ _ hrm)) hnone

lemma removeKey_tiles_eq (c : TileCache) (key : CacheKey) :
    (c.removeKey key).tiles = c.tiles.filter (fun kt => kt.1 ≠ key) := by
  unfold TileCache.removeKey
  cases hfind : findTile key c.tiles with
  | some old => rfl
  | none =>
    exact (filter_ne_eq_self_of_not_mem key c.tiles
      ((findTile_eq_none_iff key c.tiles).1 hfind)).symm

lemma foldl_removeKey_tiles_eq (D : List CacheKey) (c : TileCache) :
    (D.foldl TileCache.removeKey c).tiles
      = c.tiles.filter (fun kt => decide (kt.1 ∉ D)) := by
  induction D generalizing c with
  | nil => simp
  | cons d rest ih =>
    rw [List.foldl_cons, ih, removeKey_tiles_eq, List.filter_filter]
    apply List.filter_congr
    intro kt _
    by_cases h1 : kt.1 = d <;> by_cases h2 : kt.1 ∈ rest <;> simp [h1, h2]

/-- Source `clear_for_file` removes exactly the entries of the given file. -/
lemma clear_for_file_tiles (c : TileCache) (fi : Nat) :
    (c.clear_for_file fi).tiles = c.tiles.filter (fun kt => kt.1.1 ≠ fi) := by
  rw [TileCache.clear_for_file, foldl_removeKey_tiles_eq]
  apply List.filter_congr
  intro kt hkt
  have hmem : kt.1 ∈ c.tiles.map Prod.fst := List.mem_map_of_mem Prod.fst hkt
  by_cases h : kt.1.1 = fi
  · simp [List.mem_filter, hmem, h]
  · simp [List.mem_filter, h]

lemma findTile_filter_of_pred_false (key : CacheKey)
    (tiles : List (CacheKey × Tile)) (p : CacheKey × Tile → Bool)
    (h : ∀ t : Tile, p (key, t) = false) :
    findTile key (tiles.filter p) = none := by
  induction tiles with
  | nil => simp [findTile]
  | cons kt rest ih =>
    obtain ⟨k, t⟩ := kt
    rw [List.filter_cons]
    by_cases hpk : p (k, t) = true
    · rw [if_pos hpk, findTile]
      rcases eq_or_ne k key with rfl | hk
      · rw [h t] at hpk
        exact absurd hpk (by simp)
      · rw [if_neg hk]
        exact ih
    · rw [if_neg hpk]
      exact ih

lemma findTile_filter_of_pred_true (key : CacheKey)
    (tiles : List (CacheKey × Tile)) (p : CacheKey × Tile → Bool)
    (h : ∀ t : Tile, p (key, t) = true) :
    findTile key (tiles.filter p) = findTile key tiles := by
  induction tiles with
  | nil => simp
  | cons kt rest ih =>
    obtain ⟨k, t⟩ := kt
    rw [List.filter_cons]
    rcases eq_or_ne k key with rfl | hk
    · rw [if_pos (h t), findTile, if_pos rfl, findTile, if_pos rfl]
    · by_cases hpk : p (k, t) = true
      · rw [if_pos hpk, findTile, if_neg hk, findTile, if_neg hk]
        exact ih
      · rw [if_neg hpk, findTile, if_neg hk]
        exact ih

/-- C10: `clear_file(f)` removes from the magnitude cache exactly the
tiles of file `f` and from the in-flight set exactly the keys of file `f`;
lookups for every other file are unchanged, the byte counter remains the
sum over the remaining tiles, and the flow/reassignment state and pending
tasks are untouched. -/
theorem clear_file_frame (s : SchedState) (hWF : s.cache.WF) (fi : Nat) :
    (∀ lod ti, findTile (fi, lod, ti) (clear_file fi s).cache.tiles = none) ∧
    (∀ f' lod ti, f' ≠ fi →
      findTile (f', lod, ti) (clear_file fi s).cache.tiles
        = findTile (f', lod, ti) s.cache.tiles) ∧
    (clear_file fi s).inFlight = s.inFlight.filter (fun k => k.1 ≠ fi) ∧
    (clear_file fi s).cache.total_bytes
      = sumBytes (clear_file fi s).cache.tiles ∧
    (clear_file fi s).flowCache = s.flowCache ∧
    (clear_file fi s).flowInFlight = s.flowInFlight ∧
    (clear_file fi s).reassignCache = s.reassignCache ∧
    (clear_file fi s).reassignInFlight = s.reassignInFlight ∧
    (clear_file fi s).pending = s.pending := by
  have htiles : (clear_file fi s).cache.tiles
      = s.cache.tiles.filter (fun kt => kt.1.1 ≠ fi) :=
    clear_for_file_tiles s.cache fi
  refine ⟨?_, ?_, rfl, ?_, rfl, rfl, rfl, rfl, rfl⟩
  · intro lod ti
    rw [htiles]
    exact findTile_filter_of_pred_false _ _ _ (fun t => by simp)
  · intro f' lod ti hne
    rw [htiles]
    exact findTile_filter_of_pred_true _ _ _ (fun t => by simp [hne])
  · exact (foldl_removeKey_WF _ s.cache hWF).total_eq

/-- C10 witness: clearing file 0 from a state holding one tile each of
files 0 and 1 removes file 0's tile and leaves file 1's lookup unchanged. -/
theorem clear_file_frame_witness :
    findTile (0, 1, 0)
      (clear_file 0 ⟨runOps [CacheOp.insert 0 1 0 ⟨4⟩, CacheOp.insert 1 1 0 ⟨5⟩],
        [], TileCache.new, [], TileCache.new, [], [], []⟩).cache.tiles = none ∧
    findTile (1, 1, 0)
      (clear_file 0 ⟨runOps [CacheOp.insert 0 1 0 ⟨4⟩, CacheOp.insert 1 1 0 ⟨5⟩],
        [], TileCache.new, [], TileCache.new, [], [], []⟩).cache.tiles
      = findTile (1, 1, 0)
          (runOps [CacheOp.insert 0 1 0 ⟨4⟩, CacheOp.insert 1 1 0 ⟨5⟩]).tiles := by
  have h := clear_file_frame
    ⟨runOps [CacheOp.insert 0 1 0 ⟨4⟩, CacheOp.insert 1 1 0 ⟨5⟩],
      [], TileCache.new, [], TileCache.new, [], [], []⟩
    (runOps_WF [CacheOp.insert 0 1 0 ⟨4⟩, CacheOp.insert 1 1 0 ⟨5⟩]) 0
  exact ⟨h.1 1 0, h.2.1 1 1 0 (by decide)⟩

/-- C3: scheduling any tile index at or beyond
`tile_count_for_samples(total_samples, lod)` is a silent no-op for all
three schedule routines: the state (cache, in-flight set, pending tasks,
call ledger) is returned unchanged. -/
theorem schedule_out_of_range_noop (s : SchedState)
    (file_idx lod tile_idx total_samples : Nat) (algo : FlowAlgo)
    (h : tile_count_for_samples total_samples lod ≤ tile_idx) :
    schedule_tile_lod file_idx lod tile_idx total_samples s = s ∧
    schedule_flow_tile file_idx lod tile_idx total_samples algo s = s ∧
    schedule_reassign_tile file_idx lod tile_idx total_samples s = s := by
  refine ⟨?_, ?_, ?_⟩
  · rw [schedule_tile_lod]
    split_ifs with h1 h2 <;> rfl
  · rw [schedule_flow_tile]
    split_ifs with h1 h2 <;> rfl
  · rw [schedule_reassign_tile]
    split_ifs with h1 h2 <;> rfl

/-- C3 witness: tile 0 of an empty file (0 samples ⇒ 0 tiles) at LOD 1. -/
theorem schedule_out_of_range_noop_witness :
    schedule_tile_lod 0 1 0 0 SchedState.init = SchedState.init ∧
    schedule_flow_tile 0 1 0 0 FlowAlgo.optical SchedState.init = SchedState.init ∧
    schedule_reassign_tile 0 1 0 0 SchedState.init = SchedState.init :=
  schedule_out_of_range_noop SchedState.init 0 1 0 0 FlowAlgo.optical (by decide)

/-- C2: a `schedule_tile_lod` call for a key already cached or already in
flight returns the state unchanged (no in-flight insertion, no task spawn,
no backend call); and from a clean in-range state, two consecutive
schedule calls for the same key spawn exactly one pending task — hence
exactly one Analysis Backend invocation when that single task later runs —
and the second call changes nothing. Once a tile is stored for the key,
schedule calls are no-ops until the cache entry is cleared. -/
theorem schedule_dedup (s : SchedState) (file_idx lod tile_idx total_samples : Nat) :
    (findTile (file_idx, lod, tile_idx) s.cache.tiles ≠ none ∨
        (file_idx, lod, tile_idx) ∈ s.inFlight →
      schedule_tile_lod file_idx lod tile_idx total_samples s = s) ∧
    (findTile (file_idx, lod, tile_idx) s.cache.tiles = none →
      (file_idx, lod, tile_idx) ∉ s.inFlight →
      tile_idx < tile_count_for_samples total_samples lod →
      schedule_tile_lod file_idx lod tile_idx total_samples
          (schedule_tile_lod file_idx lod tile_idx total_samples s)
        = schedule_tile_lod file_idx lod tile_idx total_samples s ∧
      (file_idx, lod, tile_idx)
        ∈ (schedule_tile_lod file_idx lod tile_idx total_samples s).inFlight ∧
      (schedule_tile_lod file_idx lod tile_idx total_samples s).pending.count
          (TaskKind.magLod, (file_idx, lod, tile_idx))
        = s.pending.count (TaskKind.magLod, (file_idx, lod, tile_idx)) + 1 ∧
      (schedule_tile_lod file_idx lod tile_idx total_samples s).calls = s.calls ∧
      (schedule_tile_lod file_idx lod tile_idx total_samples s).cache = s.cache) := by
  constructor
  · intro hor
    rw [schedule_tile_lod]
    split_ifs with h1 h2 h3
    · rfl
    · rfl
    · rfl
    · rcases hor with hc | hf
      · exact absurd hc h1
      · exact absurd hf h2
  · intro hnone hnotin hrange
    have hs1 : schedule_tile_lod file_idx lod tile_idx total_samples s
        = { s with inFlight := (file_idx, lod, tile_idx) :: s.inFlight,
                   pending := (TaskKind.magLod, (file_idx, lod, tile_idx)) :: s.pending } := by
      rw [schedule_tile_lod]
      rw [if_neg (by simpa using hnone), if_neg hnotin, if_neg (by omega)]
    refine ⟨?_, ?_, ?_, ?_, ?_⟩
    · rw [hs1, schedule_tile_lod]
      rw [if_neg (by simpa using hnone), if_pos (List.mem_cons_self _ _)]
    · rw [hs1]
      exact List.mem_cons_self _ _
    · rw [hs1]
      simp [List.count_cons]
    · rw [hs1]
    · rw [hs1]

/-- The in-flight/tiles disjointness invariant for all three cache pairs. -/
def DisjointInv (s : SchedState) : Prop :=
  (∀ k ∈ s.inFlight, findTile k s.cache.tiles = none) ∧
  (∀ k ∈ s.flowInFlight, findTile k s.flowCache.tiles = none) ∧
  (∀ k ∈ s.reassignInFlight, findTile k s.reassignCache.tiles = none)

lemma evict_far_from_tiles_sublist (c : TileCache) (fi lod ct kr : Nat) :
    (c.evict_far_from fi lod ct kr).tiles.Sublist c.tiles := by
  simp only [TileCache.evict_far_from, foldl_removeKey_tiles_eq]
  exact List.filter_sublist _

lemma clear_for_file_tiles_sublist (c : TileCache) (fi : Nat) :
    (c.clear_for_file fi).tiles.Sublist c.tiles := by
  rw [clear_for_file_tiles]
  exact List.filter_sublist _

lemma step_preserves_disjoint {s s' : SchedState} (hstep : Step s s')
    (hinv : DisjointInv s) : DisjointInv s' := by
  obtain ⟨h1, h2, h3⟩ := hinv
  cases hstep with
  | schedTileLod fi lod ti ts =>
    simp only [schedule_tile_lod]
    split_ifs with hc hf hb
    · exact ⟨h1, h2, h3⟩
    · exact ⟨h1, h2, h3⟩
    · exact ⟨h1, h2, h3⟩
    · refine ⟨?_, h2, h3⟩
      intro k hk
      rcases List.mem_cons.1 hk with rfl | hk
      · exact not_ne_iff.1 hc
      · exact h1 k hk
  | schedTile fi ti =>
    simp only [schedule_tile]
    split_ifs with hc hf
    · exact ⟨h1, h2, h3⟩
    · exact ⟨h1, h2, h3⟩
    · refine ⟨?_, h2, h3⟩
      intro k hk
      rcases List.mem_cons.1 hk with rfl | hk
      · exact not_ne_iff.1 hc
      · exact h1 k hk
  | schedFlow fi lod ti ts algo =>
    simp only [schedule_flow_tile]
    split_ifs with hc hf hb
    · exact ⟨h1, h2, h3⟩
    · exact ⟨h1, h2, h3⟩
    · exact ⟨h1, h2, h3⟩
    · refine ⟨h1, ?_, h3⟩
      intro k hk
      rcases List.mem_cons.1 hk with rfl | hk
      · exact not_ne_iff.1 hc
      · exact h2 k hk
  | schedReassign fi lod ti ts =>
    simp only [schedule_reassign_tile]
    split_ifs with hc hf hb
    · exact ⟨h1, h2, h3⟩
    · exact ⟨h1, h2, h3⟩
    · exact ⟨h1, h2, h3⟩
    · refine ⟨h1, h2, ?_⟩
      intro k hk
      rcases List.mem_cons.1 hk with rfl | hk
      · exact not_ne_iff.1 hc
      · exact h3 k hk
  | completeMagLod key o hpend =>
    cases o with
    | abandoned =>
      exact ⟨fun k hk => h1 k (List.mem_filter.1 hk).1, h2, h3⟩
    | emptyCols =>
      exact ⟨fun k hk => h1 k (List.mem_filter.1 hk).1, h2, h3⟩
    | success r =>
      refine ⟨?_, h2, h3⟩
      intro k hk
      have hmem := (List.mem_filter.1 hk).1
      have hne : k ≠ key := by simpa using (List.mem_filter.1 hk).2
      exact findTile_insert_ne _ key.1 key.2.1 key.2.2 r k hne (h1 k hmem)
  | completeMagTile key o hpend =>
    cases o with
    | abandoned =>
      exact ⟨fun k hk => h1 k (List.mem_filter.1 hk).1, h2, h3⟩
    | emptyCols =>
      exact ⟨fun k hk => h1 k (List.mem_filter.1 hk).1, h2, h3⟩
    | success r =>
      refine ⟨?_, h2, h3⟩
      intro k hk
      have hmem := (List.mem_filter.1 hk).1
      have hne : k ≠ key := by simpa using (List.mem_filter.1 hk).2
      exact findTile_insert_ne _ key.1 key.2.1 key.2.2 r k hne (h1 k hmem)
  | completeFlow key o hpend =>
    cases o with
    | abandoned =>
      exact ⟨h1, fun k hk => h2 k (List.mem_filter.1 hk).1, h3⟩
    | emptyCols =>
      exact ⟨h1, fun k hk => h2 k (List.mem_filter.1 hk).1, h3⟩
    | success r =>
      refine ⟨h1, ?_, h3⟩
      intro k hk
      have hmem := (List.mem_filter.1 hk).1
      have hne : k ≠ key := by simpa using (List.mem_filter.1 hk).2
      exact findTile_insert_ne _ key.1 key.2.1 key.2.2 r k hne (h2 k hmem)
  | completeReassign key o hpend =>
    cases o with
    | abandoned =>
      exact ⟨h1, h2, fun k hk => h3 k (List.mem_filter.1 hk).1⟩
    | emptyCols =>
      exact ⟨h1, h2, fun k hk => h3 k (List.mem_filter.1 hk).1⟩
    | success r =>
      refine ⟨h1, h2, ?_⟩
      intro k hk
      have hmem := (List.mem_filter.1 hk).1
      have hne : k ≠ key := by simpa using (List.mem_filter.1 hk).2
      exact findTile_insert_ne _ key.1 key.2.1 key.2.2 r k hne (h3 k hmem)
  | stepClearFile fi =>
    refine ⟨?_, h2, h3⟩
    intro k hk
    have hmem := (List.mem_filter.1 hk).1
    exact findTile_none_of_sublist k (clear_for_file_tiles_sublist s.cache fi)
      (h1 k hmem)
  | stepClearAll =>
    exact ⟨fun k hk => absurd hk (List.not_mem_nil k), h2, h3⟩
  | stepClearFlowFile fi =>
    refine ⟨h1, ?_, h3⟩
    intro k hk
    have hmem := (List.mem_filter.1 hk).1
    exact findTile_none_of_sublist k (clear_for_file_tiles_sublist s.flowCache fi)
      (h2 k hmem)
  | stepClearFlowAll =>
    exact ⟨h1, fun k hk => absurd hk (List.not_mem_nil k), h3⟩
  | stepClearReassignFile fi =>
    refine ⟨h1, h2, ?_⟩
    intro k hk
    have hmem := (List.mem_filter.1 hk).1
    exact findTile_none_of_sublist k
      (clear_for_file_tiles_sublist s.reassignCache fi) (h3 k hmem)
  | stepClearReassignAll =>
    exact ⟨h1, h2, fun k hk => absurd hk (List.not_mem_nil k)⟩
  | stepEvictFar fi lod ct kr =>
    refine ⟨?_, h2, h3⟩
    intro k hk
    exact findTile_none_of_sublist k (evict_far_from_tiles_sublist s.cache fi lod ct kr)
      (h1 k hk)
  | stepBorrow fi lod ti =>
    simp only [borrow_tile]
    split_ifs with hc
    · exact ⟨h1, h2, h3⟩
    · exact ⟨h1, h2, h3⟩

/-- C6: at every state reachable by the scheduler step relation, the
in-flight sets and the corresponding tile maps are disjoint (a key in
flight is never simultaneously in the store), and every task completion —
whether it succeeds or abandons — consumes exactly one pending task for
its key and leaves the key outside the in-flight set (the single removal
point). -/
theorem inflight_tiles_disjoint (s : SchedState) (h : Reach s) :
    (∀ k ∈ s.inFlight, findTile k s.cache.tiles = none) ∧
    (∀ k ∈ s.flowInFlight, findTile k s.flowCache.tiles = none) ∧
    (∀ k ∈ s.reassignInFlight, findTile k s.reassignCache.tiles = none) ∧
    (∀ key o, key ∉ (complete_mag_lod key o s).inFlight ∧
      (complete_mag_lod key o s).pending
        = s.pending.erase (TaskKind.magLod, key)) ∧
    (∀ key o, key ∉ (complete_mag_tile key o s).inFlight ∧
      (complete_mag_tile key o s).pending
        = s.pending.erase (TaskKind.magTile, key)) ∧
    (∀ key o, key ∉ (complete_flow key o s).flowInFlight ∧
      (complete_flow key o s).pending
        = s.pending.erase (TaskKind.flow, key)) ∧
    (∀ key o, key ∉ (complete_reassign key o s).reassignInFlight ∧
      (complete_reassign key o s).pending
        = s.pending.erase (TaskKind.reassign, key)) := by
  have hinv : DisjointInv s := by
    induction h with
    | init =>
      refine ⟨?_, ?_, ?_⟩ <;> (intro k hk; exact absurd hk (List.not_mem_nil k))
    | step hr hs ih => exact step_preserves_disjoint hs ih
  obtain ⟨h1, h2, h3⟩ := hinv
  refine ⟨h1, h2, h3, ?_, ?_, ?_, ?_⟩ <;>
    (intro key o;
     refine ⟨?_, ?_⟩ <;> cases o <;>
       first
        | (intro hk; simpa using (List.mem_filter.1 hk).2)
        | rfl)

/-- C6 witness: at the reachable initial state, completing an abandoned
task for a concrete key removes it from the in-flight set and consumes
exactly its pending entry. -/
theorem inflight_tiles_disjoint_witness :
    (0, 1, 0) ∉ (complete_mag_lod (0, 1, 0) TaskOutcome.abandoned
      SchedState.init).inFlight ∧
    (complete_mag_lod (0, 1, 0) TaskOutcome.abandoned SchedState.init).pending
      = SchedState.init.pending.erase (TaskKind.magLod, (0, 1, 0)) :=
  (inflight_tiles_disjoint SchedState.init Reach.init).2.2.2.1
    (0, 1, 0) TaskOutcome.abandoned

/-- C2 witness: a clean schedule of tile 0 at LOD 1 of a 2048-sample file
(one tile), followed by a duplicate call. -/
theorem schedule_dedup_witness :
    schedule_tile_lod 0 1 0 2048 (schedule_tile_lod 0 1 0 2048 SchedState.init)
      = schedule_tile_lod 0 1 0 2048 SchedState.init ∧
    (0, 1, 0) ∈ (schedule_tile_lod 0 1 0 2048 SchedState.init).inFlight ∧
    (schedule_tile_lod 0 1 0 2048 SchedState.init).pending.count
        (TaskKind.magLod, (0, 1, 0))
      = SchedState.init.pending.count (TaskKind.magLod, (0, 1, 0)) + 1 := by
  have h := (schedule_dedup SchedState.init 0 1 0 2048).2
    (by decide) (by decide) (by decide)
  exact ⟨h.1, h.2.1, h.2.2.1⟩

/-! ## The prefetch planner (`schedule_prefetch_tiles`, source lines 605–660)

`prefetchTiles` is the planner's tile-selection logic (regions 1 and 2 with
the 30-tile cap); `prefetchRequests` records, in order, the `(kind, lod,
tile)` of every `schedule_*` invocation the planner's final loop emits. -/

/-- The planner's `time_to_tile` closure: seconds → sample → STFT column →
tile index (the `as usize` cast of a non-negative `f64` truncates;
a negative product saturates to 0, matching `Int.toNat ∘ Int.floor`). -/
def time_to_tile (sample_rate hop : Nat) (t : ℚ) : Nat :=
  let sample := (⌊t * (sample_rate : ℚ)⌋).toNat
  let col := sample / hop
  col / TILE_COLS

/-- The list of tiles the planner selects: the window ahead of
`center_time`, then the initial window from the file start (deduplicated),
both truncated at `max_prefetch = 30` entries. -/
def prefetchTiles (total_samples sample_rate : Nat)
    (center_time ahead_secs initial_secs zoom : ℚ) : List Nat :=
  let lod := select_lod zoom
  let hop := (lodConfig lod).hop_size
  let max_tiles := tile_count_for_samples total_samples lod
  if max_tiles = 0 then []
  else
    let max_prefetch := 30
    let center_tile := time_to_tile sample_rate hop center_time
    let ahead_end := min (time_to_tile sample_rate hop (center_time + ahead_secs))
      (max_tiles - 1)
    let region1 := (List.range (ahead_end + 1 - center_tile)).map
      (fun i => center_tile + i)
    let tiles₁ := region1.foldl
      (fun acc t => if max_prefetch ≤ acc.length then acc else acc ++ [t]) []
    let initial_end := min (time_to_tile sample_rate hop initial_secs) (max_tiles - 1)
    let region2 := List.range (initial_end + 1)
    region2.foldl
      (fun acc t =>
        if max_prefetch ≤ acc.length then acc
        else if t ∈ acc then acc else acc ++ [t]) tiles₁

/-- The schedule calls the planner's final loop emits for one planned tile
`t`: the ideal-LOD magnitude tile, then the flow tile when a flow
algorithm is active, then the reassignment tile when enabled and the LOD
is not the coarsest. -/
def prefetchRequestsFor (lod : Nat) (flow_algo : Option FlowAlgo)
    (reassign : Bool) (t : Nat) : List (TaskKind × Nat × Nat) :=
  [(TaskKind.magLod, lod, t)]
    ++ (match flow_algo with
        | some _ => [(TaskKind.flow, lod, t)]
        | none => [])
    ++ (if reassign ∧ 0 < lod then [(TaskKind.reassign, lod, t)] else [])

/-- All `(kind, lod, tile)` schedule requests one `schedule_prefetch_tiles`
invocation emits, in order. -/
def prefetchRequests (total_samples sample_rate : Nat)
    (center_time ahead_secs initial_secs zoom : ℚ)
    (flow_algo : Option FlowAlgo) (reassign : Bool) :
    List (TaskKind × Nat × Nat) :=
  ((prefetchTiles total_samples sample_rate center_time ahead_secs initial_secs
      zoom).map (prefetchRequestsFor (select_lod zoom) flow_algo reassign)).flatten

lemma select_lod_eight : select_lod 8 = 3 := by
  rw [select_lod, if_pos (by norm_num)]

lemma time_to_tile_zero (sr hop : Nat) : time_to_tile sr hop 0 = 0 := by
  simp [time_to_tile]

lemma prefetchTiles_cx : prefetchTiles 10000 1000 0 0 0 8 = [0] := by
  rw [prefetchTiles, select_lod_eight]
  have h0 : time_to_tile 1000 (lodConfig 3).hop_size 0 = 0 := time_to_tile_zero _ _
  have h00 : time_to_tile 1000 (lodConfig 3).hop_size (0 + 0) = 0 := by
    norm_num [time_to_tile]
  simp only [h0, h00]
  decide

lemma prefetchRequests_cx :
    prefetchRequests 10000 1000 0 0 0 8 none false = [(TaskKind.magLod, 3, 0)] := by
  rw [prefetchRequests, prefetchTiles_cx, select_lod_eight]
  decide

/-- C4 counterexample: a concrete invocation with ideal LOD 3 ≠ 1 (one
planned tile, tile 0, whose LOD-1 fallback via `fallback_tile_info` is
tile 0) schedules only the LOD-3 magnitude tile; the LOD-1 fallback
request the claim promises is absent. -/
theorem prefetch_no_fallback_counterexample :
    select_lod 8 = 3 ∧
    prefetchRequests 10000 1000 0 0 0 8 none false
      = [(TaskKind.magLod, 3, 0)] ∧
    (fallback_tile_info 3 0 1).1 = 0 ∧
    (TaskKind.magLod, 1, (fallback_tile_info 3 0 1).1)
      ∉ prefetchRequests 10000 1000 0 0 0 8 none false := by
  have hfb : (fallback_tile_info 3 0 1).1 = 0 := by
    simp [fallback_tile_info]
  refine ⟨select_lod_eight, prefetchRequests_cx, hfb, ?_⟩
  rw [prefetchRequests_cx, hfb]
  decide

/-- C4 (amended): `schedule_prefetch_tiles` schedules only tiles at the
ideal LOD `select_lod(zoom)` (magnitude, plus flow/reassignment when
active); it never schedules a LOD-1 fallback tile — that fallback
scheduling happens in the viewport render scheduler, not in the prefetch
planner. -/
theorem prefetch_only_ideal_lod (total_samples sample_rate : Nat)
    (center_time ahead_secs initial_secs zoom : ℚ)
    (flow_algo : Option FlowAlgo) (reassign : Bool) :
    ∀ req ∈ prefetchRequests total_samples sample_rate center_time ahead_secs
        initial_secs zoom flow_algo reassign,
      req.2.1 = select_lod zoom := by
  intro req hreq
  rw [prefetchRequests] at hreq
  obtain ⟨l, hl, hreq⟩ := List.mem_flatten.1 hreq
  obtain ⟨t, _ht, rfl⟩ := List.mem_map.1 hl
  simp only [prefetchRequestsFor] at hreq
  rcases List.mem_append.1 hreq with h | h
  · rcases List.mem_append.1 h with h' | h'
    · rcases List.mem_singleton.1 h' with rfl
      rfl
    · cases flow_algo with
      | some algo =>
        rcases List.mem_singleton.1 h' with rfl
        rfl
      | none => exact absurd h' (List.not_mem_nil req)
  · by_cases hra : reassign ∧ 0 < select_lod zoom
    · rw [if_pos hra] at h
      rcases List.mem_singleton.1 h with rfl
      rfl
    · rw [if_neg hra] at h
      exact absurd h (List.not_mem_nil req)

/-- C4 amended witness: the single request of the concrete invocation is
at the ideal LOD. -/
theorem prefetch_only_ideal_lod_witness :
    (TaskKind.magLod, 3, 0) ∈ prefetchRequests 10000 1000 0 0 0 8 none false ∧
    ((TaskKind.magLod, (3 : Nat), (0 : Nat))).2.1 = select_lod 8 :=
  ⟨by simp [prefetchRequests_cx],
   prefetch_only_ideal_lod 10000 1000 0 0 0 8 none false
     (TaskKind.magLod, 3, 0) (by simp [prefetchRequests_cx])⟩

/-! ## Rendered tile widths (`schedule_tile`, `render_live_tile_sync`)

The payload dimensions of the tiles these two paths insert.
`pre_render_columns` itself is not under `src/` (only its callers are); it
is modelled from the spec, mirroring `pre_render` in
`spectrogram_renderer.rs`, which sets `width = number of columns` and
`height = bins per column` (0×0 for no columns). -/

/-- Width and height of a `PreRendered` payload. -/
structure PreDims where
  width : Nat
  height : Nat
deriving DecidableEq, Repr

/-- Modelled from the spec: `pre_render_columns` (missing from `src/`)
renders one image column per spectrogram column — `width` is the number of
columns passed, `height` the number of frequency bins — exactly like
`pre_render` in `spectrogram_renderer.rs`, which returns a 0×0 payload for
an empty column list. -/
def pre_render_columns (nCols nBins : Nat) : PreDims :=
  if nCols = 0 then ⟨0, 0⟩ else ⟨nCols, nBins⟩

/-- Width of the tile the `schedule_tile` task inserts for `tile_idx` of a
file whose spectrogram holds `total_cols` columns of `nBins` bins each
(source lines 394–405): the column slice is
`[tile_idx*TILE_COLS, min(tile_idx*TILE_COLS + TILE_COLS, total_cols))`,
with an early return (`none`, nothing inserted) when it is empty. -/
def schedule_tile_inserted_width (total_cols tile_idx nBins : Nat) : Option Nat :=
  let col_start := tile_idx * TILE_COLS
  let col_end := min (col_start + TILE_COLS) total_cols
  if col_end ≤ col_start then none
  else some (pre_render_columns (col_end - col_start) nBins).width

/-- Modelled from the spec: `spectral_store::with_columns` (missing from
`src/`) applies the callback to the stored columns overlapping
`[col_start, col_end)`; a file with no column store (`store_cols = none`)
yields `None`. Returns the width of the slice handed to the callback. -/
def with_columns_width (store_cols : Option Nat) (col_start col_end : Nat) :
    Option Nat :=
  match store_cols with
  | none => none
  | some n => some (min col_end n - col_start)

/-- Width of the tile `render_live_tile_sync` inserts (source lines
449–509): a non-empty partial render narrower than a full tile is padded
to `TILE_COLS`; an empty render, or one already `≥ TILE_COLS` columns
wide, is inserted as-is. -/
def render_live_tile_inserted_width (store_cols : Option Nat)
    (col_start available_cols nBins : Nat) : Option Nat :=
  match with_columns_width store_cols col_start (col_start + available_cols) with
  | none => none
  | some w =>
    if (pre_render_columns w nBins).width = 0 ∨
        (pre_render_columns w nBins).height = 0 then
      some (pre_render_columns w nBins).width
    else if TILE_COLS ≤ available_cols then
      some (pre_render_columns w nBins).width
    else some TILE_COLS

/-- C5 counterexample: the last tile of a file with 300 spectrogram
columns (tile 1, columns 256–299) is inserted by `schedule_tile` with
width 44 — neither 0 nor `TILE_COLS`; `schedule_tile` does not pad. -/
theorem tile_width_counterexample :
    schedule_tile_inserted_width 300 1 1025 = some 44 ∧
    ¬ (44 = 0 ∨ 44 = TILE_COLS) := by
  constructor
  · decide
  · decide

/-- C5 (amended): a tile inserted by `schedule_tile` has width between 1
and `TILE_COLS` — the last tile of a file whose column count is not a
multiple of `TILE_COLS` is inserted at its partial width, not padded —
while a partial live tile inserted by `render_live_tile_sync` with
`available_cols < TILE_COLS` (and a non-degenerate bin count) does have
width 0 or exactly `TILE_COLS`. -/
theorem tile_width_amended :
    (∀ total_cols tile_idx nBins w,
      schedule_tile_inserted_width total_cols tile_idx nBins = some w →
      0 < w ∧ w ≤ TILE_COLS) ∧
    (∀ store_cols col_start available_cols nBins w,
      available_cols < TILE_COLS → 0 < nBins →
      render_live_tile_inserted_width store_cols col_start available_cols nBins
        = some w →
      w = 0 ∨ w = TILE_COLS) := by
  constructor
  · intro total_cols tile_idx nBins w hw
    rw [schedule_tile_inserted_width] at hw
    by_cases hle : min (tile_idx * TILE_COLS + TILE_COLS) total_cols
        ≤ tile_idx * TILE_COLS
    · rw [if_pos hle] at hw
      exact absurd hw (by simp)
    · rw [if_neg hle] at hw
      injection hw with hw
      rw [pre_render_columns, if_neg (by omega)] at hw
      subst hw
      simp only [PreDims]
      omega
  · intro store_cols col_start available_cols nBins w hav hbins hw
    cases store_cols with
    | none =>
      exact absurd hw (by simp [render_live_tile_inserted_width, with_columns_width])
    | some n =>
      rw [render_live_tile_inserted_width, with_columns_width] at hw
      dsimp only at hw
      split_ifs at hw with hcond hfull
      · injection hw with hw
        subst hw
        left
        rcases hcond with hzw | hzh
        · exact hzw
        · rw [pre_render_columns] at hzh ⊢
          by_cases h0 : min (col_start + available_cols) n - col_start = 0
          · rw [if_pos h0]
          · rw [if_neg h0] at hzh
            exact absurd (show nBins = 0 from hzh) (by omega)
      · exact absurd hfull (by omega)
      · injection hw with hw
        right
        omega

/-- C5 amended witness: the counterexample tile for the `schedule_tile`
bound, and a 100-column live render padded to 256. -/
theorem tile_width_amended_witness :
    (0 < 44 ∧ 44 ≤ TILE_COLS) ∧ (256 = 0 ∨ 256 = TILE_COLS) :=
  ⟨tile_width_amended.1 300 1 1025 44 (by decide),
   tile_width_amended.2 (some 1000) 0 100 1025 256 (by decide) (by decide)
     (by decide)⟩

/-! ## The chromagram cache and its per-file normalisation memo
(`schedule_chroma_tile` / `clear_chroma_cache`, source lines 979–1076)

The chroma LRU store is abstracted by its key set (the memo logic reads
only containment); `f32` maxima are modelled over `ℚ`. The task body's
environment reads (is the file still loaded, what the spectral store /
fallback column scan would return, whether a tile payload gets rendered)
are the `ChromaEnv` parameters; `computes` is a history ledger recording
each run of the global-max computation (lines 1028–1036). -/

/-- Chroma cache key: `(file_idx, tile_idx)` — the chroma cache is
LOD1-only. -/
abbrev ChromaKey := Nat × Nat

/-- State of the chroma thread-local cells. -/
structure ChromaState where
  tileKeys : List ChromaKey
  inFlight : List ChromaKey
  globalMax : List (Nat × (ℚ × ℚ))
  computes : List Nat
deriving DecidableEq, Repr

/-- All chroma cells start empty. -/
def ChromaState.empty : ChromaState := ⟨[], [], [], []⟩

/-- Source `HashMap::get` on the `CHROMA_GLOBAL_MAX` memo. -/
def lookupMax (file_idx : Nat) : List (Nat × (ℚ × ℚ)) → Option (ℚ × ℚ)
  | [] => none
  | (f, gm) :: rest => if f = file_idx then some gm else lookupMax file_idx rest

/-- Environment a chroma task body observes: whether the file is still
loaded, the result of `spectral_store::compute_chroma_global_max`, the
result of `chromagram::compute_chroma_max` over the file's in-memory
columns (`none` when the file is missing or its column list is empty), and
whether either render path produces a payload. The three compute
functions are not under `src/`; they are abstracted as these observed
values. -/
structure ChromaEnv where
  still_loaded : Bool
  store_max : Option (ℚ × ℚ)
  cols_max : Option (ℚ × ℚ)
  render_ok : Bool
deriving DecidableEq, Repr

/-- Synchronous prologue of `schedule_chroma_tile`
(source lines 999–1002). -/
def schedule_chroma_tile (file_idx tile_idx : Nat) (st : ChromaState) :
    ChromaState :=
  let key : ChromaKey := (file_idx, tile_idx)
  if key ∈ st.tileKeys then st
  else if key ∈ st.inFlight then st
  else { st with inFlight := key :: st.inFlight }

/-- The render-and-insert tail of the chroma task body
(source lines 1043–1074): insert the tile and release the in-flight entry,
or release it without inserting when no payload could be rendered. -/
def chroma_finish (key : ChromaKey) (env : ChromaEnv) (st : ChromaState) :
    ChromaState :=
  if env.render_ok then
    { st with tileKeys := key :: st.tileKeys,
              inFlight := st.inFlight.filter (fun k => k ≠ key) }
  else
    { st with inFlight := st.inFlight.filter (fun k => k ≠ key) }

/-- The chroma task body (source lines 1004–1075), one atomic step: bail
out if the file is gone; otherwise take the memoized `(max_class,
max_note)` pair, or compute it — store result, else fallback column scan,
else `(0, 0)` — and memoize it only when `max_class > 0`; then render. -/
def complete_chroma_tile (file_idx tile_idx : Nat) (env : ChromaEnv)
    (st : ChromaState) : ChromaState :=
  let key : ChromaKey := (file_idx, tile_idx)
  if env.still_loaded = false then
    { st with inFlight := st.inFlight.filter (fun k => k ≠ key) }
  else
    match lookupMax file_idx st.globalMax with
    | some _gm => chroma_finish key env st
    | none =>
      let gm := match env.store_max with
        | some g => g
        | none => env.cols_max.getD (0, 0)
      let st₁ := { st with computes := file_idx :: st.computes }
      let st₂ :=
        if 0 < gm.1 then { st₁ with globalMax := (file_idx, gm) :: st₁.globalMax }
        else st₁
      chroma_finish key env st₂

/-- Source `clear_chroma_cache` (source lines 979–988): clears tiles, in-flight
entries and the global-max memo. -/
def clear_chroma_cache (st : ChromaState) : ChromaState :=
  { st with tileKeys := [], inFlight := [], globalMax := [] }

/-- C9 counterexample: for a file whose spectral data is not yet available
(store and column scan both empty), the first chroma-tile request computes
the pair `(0, 0)`; because `max_class = 0` is not `> 0`, nothing is
memoized, and the request for a second tile of the same file recomputes —
the compute ledger grows to two entries and the memo stays empty. -/
theorem chroma_memo_counterexample :
    (complete_chroma_tile 0 0 ⟨true, none, none, false⟩
      (schedule_chroma_tile 0 0 ChromaState.empty)).computes = [0] ∧
    (complete_chroma_tile 0 1 ⟨true, none, none, false⟩
      (schedule_chroma_tile 0 1
        (complete_chroma_tile 0 0 ⟨true, none, none, false⟩
          (schedule_chroma_tile 0 0 ChromaState.empty)))).computes = [0, 0] ∧
    (complete_chroma_tile 0 1 ⟨true, none, none, false⟩
      (schedule_chroma_tile 0 1
        (complete_chroma_tile 0 0 ⟨true, none, none, false⟩
          (schedule_chroma_tile 0 0 ChromaState.empty)))).globalMax = [] := by
  refine ⟨?_, ?_, ?_⟩ <;> decide

/-- C9 (amended): the chroma normalisation maxima are memoized per file
provided the computed `max_class` is positive. A memo hit is reused with
no recomputation and no memo change; on a miss the pair is computed once
and memoized exactly when `max_class > 0` (a non-positive pair — spectral
data absent or silent — is recomputed on the next request); clearing the
chroma cache empties the memo, forcing recomputation; and a memoized pair
is what the next lookup returns. -/
theorem chroma_memo_amended (st : ChromaState) (file_idx tile_idx : Nat)
    (env : ChromaEnv) :
    (env.still_loaded = true → ∀ gm, lookupMax file_idx st.globalMax = some gm →
      (complete_chroma_tile file_idx tile_idx env st).computes = st.computes ∧
      (complete_chroma_tile file_idx tile_idx env st).globalMax = st.globalMax) ∧
    (env.still_loaded = true → lookupMax file_idx st.globalMax = none →
      (complete_chroma_tile file_idx tile_idx env st).computes
        = file_idx :: st.computes ∧
      (complete_chroma_tile file_idx tile_idx env st).globalMax
        = (if 0 < (match env.store_max with
              | some g => g
              | none => env.cols_max.getD (0, 0)).1 then
            (file_idx, (match env.store_max with
              | some g => g
              | none => env.cols_max.getD (0, 0))) :: st.globalMax
          else st.globalMax)) ∧
    (clear_chroma_cache st).globalMax = [] ∧
    (∀ g : ℚ × ℚ, lookupMax file_idx ((file_idx, g) :: st.globalMax) = some g) := by
  have hfin_computes : ∀ key env' st', (chroma_finish key env' st').computes
      = ChromaState.computes st' := by
    intro key env' st'
    rw [chroma_finish]
    split_ifs <;> rfl
  have hfin_max : ∀ key env' st', (chroma_finish key env' st').globalMax
      = ChromaState.globalMax st' := by
    intro key env' st'
    rw [chroma_finish]
    split_ifs <;> rfl
  refine ⟨?_, ?_, rfl, ?_⟩
  · intro hsl gm hgm
    rw [complete_chroma_tile, if_neg (by simp [hsl]), hgm]
    exact ⟨hfin_computes _ _ _, hfin_max _ _ _⟩
  · intro hsl hnone
    rw [complete_chroma_tile, if_neg (by simp [hsl]), hnone]
    dsimp only
    by_cases hpos : 0 < (match env.store_max with
        | some g => g
        | none => env.cols_max.getD (0, 0)).1
    · rw [if_pos hpos, if_pos hpos]
      exact ⟨hfin_computes _ _ _, hfin_max _ _ _⟩
    · rw [if_neg hpos, if_neg hpos]
      exact ⟨hfin_computes _ _ _, hfin_max _ _ _⟩
  · intro g
    rw [lookupMax, if_pos rfl]

/-- C9 amended witness: a memo miss with a positive store maximum gets
computed once and memoized; clearing the empty state leaves no memo. -/
theorem chroma_memo_amended_witness :
    (complete_chroma_tile 0 0 ⟨true, some (1, 2), none, true⟩
      ChromaState.empty).computes = 0 :: ChromaState.empty.computes ∧
    (clear_chroma_cache ChromaState.empty).globalMax = [] :=
  ⟨((chroma_memo_amended ChromaState.empty 0 0
      ⟨true, some (1, 2), none, true⟩).2.1 rfl (by decide)).1,
   (chroma_memo_amended ChromaState.empty 0 0
      ⟨true, some (1, 2), none, true⟩).2.2.1⟩

end Batblip
